import Mathlib

/-!
# Verification of the Math Rush game core (src/App.jsx)

Shallow embedding of the domain layer (`MathProblem`, `ProblemGenerator`,
`ScoreManager`), the reducer state machine (`gameReducer`), and the pieces of
the JS runtime they use (`parseFloat`, stable `Array.prototype.sort`,
`Number.prototype.toString` on integers, `localStorage`).

Modelling conventions:
* JS numbers (IEEE float64) are modelled as exact rationals `ℚ`.  Every value
  the claims touch is a small integer or a short decimal literal, all exactly
  representable in float64, so the model and float64 semantics agree there.
  Operands of a `MathProblem` are always integers in this program, so they are
  carried as `ℤ`; the precomputed `answer` is a `ℚ` because of division.
* `parseFloat` is modelled as `String → Option ℚ` where `none` stands for NaN
  (no parsable numeric part).  A literal `"Infinity"` input, which JS maps to
  `±Infinity`, is also mapped to `none`; for `isCorrect` this is equivalent
  because `|±∞ − answer| < 0.01` is false, exactly as every comparison with
  NaN is false.
* `localStorage` access is modelled by an explicit `StoredValue` state
  (absent slot / corrupted (unparsable) slot / parsed list of records), and
  the possibility that `localStorage.setItem` throws by a `writeOk : Bool`.
* `Math.random()`-driven sampling is modelled by an injectable random source
  `ℕ → ℕ × ℕ × ℕ` (one triple of raw draws per loop iteration) and the
  unbounded `do…while` loop by explicit fuel, so `generate` returns `none`
  only when the fuel runs out before an acceptable sample.
* `Array.prototype.sort` (required stable since ES2019) with comparator
  `(a, b) => b.score - a.score` is modelled by insertion sort with the
  relation `b.score ≤ a.score`: a stable sort by a fixed comparator is
  extensionally unique, and insertion sort that keeps ties in encounter order
  is exactly that function.

The React presentation components and hooks are display-only and are not part
of any claim; they are not embedded.
-/

namespace MathRush

/-! ## Operations (the `OPERATIONS` object) -/

/-- The four arithmetic operations, in the insertion order of the
`OPERATIONS` object: ADDITION, SUBTRACTION, MULTIPLICATION, DIVISION. -/
inductive Op
  | ADDITION
  | SUBTRACTION
  | MULTIPLICATION
  | DIVISION
deriving DecidableEq

/-- `operation.fn` — the operation's numeric function.  Operands are the
integers the program always supplies; JS division is modelled by `ℚ`
division (exact for the divisible pairs the generator emits; the generator
never divides by zero, so JS `Infinity` does not arise). -/
def Op.fn : Op → ℤ → ℤ → ℚ
  | .ADDITION, a, b => (a : ℚ) + (b : ℚ)
  | .SUBTRACTION, a, b => (a : ℚ) - (b : ℚ)
  | .MULTIPLICATION, a, b => (a : ℚ) * (b : ℚ)
  | .DIVISION, a, b => (a : ℚ) / (b : ℚ)

/-- `operation.symbol` — display glyph (display-only). -/
def Op.symbol : Op → Char
  | .ADDITION => '+'
  | .SUBTRACTION => '-'
  | .MULTIPLICATION => '×'
  | .DIVISION => '÷'

/-- `Object.values(OPERATIONS)[i]` — operation by index, in insertion
order.  The code only indexes with `Math.floor(Math.random() * 4) ∈ 0..3`. -/
def opOfIndex : ℕ → Op
  | 0 => .ADDITION
  | 1 => .SUBTRACTION
  | 2 => .MULTIPLICATION
  | _ => .DIVISION

/-! ## The JS `parseFloat` model

`parseFloat` skips leading whitespace, reads an optional sign, then the
longest numeric literal (digits, optional fraction, optional exponent) and
ignores everything after it; it returns NaN when no digit was read.  The
functions below return the value together with the unconsumed rest of the
input so that the longest-leading-literal behaviour is explicit. -/

/-- JS whitespace skipped by `parseFloat` (the common whitespace characters;
the remaining Unicode space characters never occur in the claims). -/
def wsChar (c : Char) : Bool :=
  c = ' ' || c = '\t' || c = '\n' || c = '\r'

/-- Numeric value of a decimal digit character. -/
def digitVal (c : Char) : ℕ := c.toNat - 48

/-- Value of a digit string read left to right. -/
def digitsToNat (ds : List Char) : ℕ :=
  ds.foldl (fun a c => 10 * a + digitVal c) 0

/-- The optional sign right after `e`/`E`; returns (isNegative, rest). -/
def expSign (rest : List Char) : Bool × List Char :=
  match rest with
  | [] => (false, [])
  | d :: r3 =>
    if d = '-' then (true, r3)
    else if d = '+' then (false, r3)
    else (false, d :: r3)

/-- Optional exponent part (`e`/`E`, optional sign, digits).  If the
characters after `e`/`E` do not contain a digit the exponent is not part of
the literal (JS: `parseFloat "7e+" = 7`), so the input is returned whole. -/
def parseExp (mant : ℚ) (l : List Char) : ℚ × List Char :=
  match l with
  | [] => (mant, [])
  | c :: rest =>
    if c = 'e' || c = 'E' then
      let eds := (expSign rest).2.takeWhile Char.isDigit
      let r4 := (expSign rest).2.dropWhile Char.isDigit
      if eds.isEmpty then (mant, l)
      else if (expSign rest).1 then (mant / 10 ^ digitsToNat eds, r4)
      else (mant * 10 ^ digitsToNat eds, r4)
    else (mant, l)

/-- Mantissa: digits, then optionally `.` and more digits.  NaN (`none`)
when neither the integer part nor the fraction contains a digit. -/
def parseMant (l : List Char) : Option (ℚ × List Char) :=
  let intDs := l.takeWhile Char.isDigit
  let r1 := l.dropWhile Char.isDigit
  match r1 with
  | [] => if intDs.isEmpty then none else some ((digitsToNat intDs : ℚ), [])
  | c :: r2 =>
    if c = '.' then
      let fracDs := r2.takeWhile Char.isDigit
      let r3 := r2.dropWhile Char.isDigit
      if intDs.isEmpty && fracDs.isEmpty then none
      else some ((digitsToNat intDs : ℚ) + (digitsToNat fracDs : ℚ) / 10 ^ fracDs.length, r3)
    else if intDs.isEmpty then none else some ((digitsToNat intDs : ℚ), c :: r2)

/-- Optional leading sign; returns (isNegative, rest). -/
def parseSign (l : List Char) : Bool × List Char :=
  match l with
  | [] => (false, [])
  | c :: r =>
    if c = '-' then (true, r)
    else if c = '+' then (false, r)
    else (false, c :: r)

/-- `parseFloat` on a character list, also returning the unconsumed rest of
the input. -/
def parseFloatR (l : List Char) : Option (ℚ × List Char) :=
  let l1 := l.dropWhile wsChar
  let s := parseSign l1
  match parseMant s.2 with
  | none => none
  | some (m, r) =>
    let e := parseExp m r
    some (if s.1 then -e.1 else e.1, e.2)

/-- Model of JS `parseFloat`: `none` is NaN (no parsable numeric part). -/
def parseFloat (s : String) : Option ℚ :=
  (parseFloatR s.data).map Prod.fst

/-! ## `MathProblem` -/

/-- A `MathProblem` instance: the two operands, the operation, and the
`answer` field the constructor precomputes. -/
structure MathProblem where
  operand1 : ℤ
  operand2 : ℤ
  operation : Op
  answer : ℚ
deriving DecidableEq

/-- The `MathProblem` constructor: stores the operands and operation and
precomputes `answer = operation.fn(operand1, operand2)`. -/
def MathProblem.make (o1 o2 : ℤ) (op : Op) : MathProblem :=
  ⟨o1, o2, op, op.fn o1 o2⟩

/-- `MathProblem.isCorrect`:
`Math.abs(parseFloat(userAnswer) - this.answer) < 0.01`.
When `parseFloat` yields NaN the whole comparison is false (every comparison
with NaN is false in JS), which is the `none` branch here; the function is
total, it never throws. -/
def MathProblem.isCorrect (p : MathProblem) (userAnswer : String) : Bool :=
  match parseFloat userAnswer with
  | none => false
  | some x => decide (|x - p.answer| < 1 / 100)

/-! ## `ProblemGenerator` -/

/-- One iteration of the sampling loop of `ProblemGenerator.generate`:
`Math.floor(Math.random() * 9) + 1` for each operand (uniform on 1..9) and
`Math.floor(Math.random() * operations.length)` for the operation index
(uniform on 0..3).  The injectable random source yields one triple of raw
naturals per iteration; `% 9` / `% 4` map the raw draws onto the ranges the
uniform draws take. -/
def sample (src : ℕ → ℕ × ℕ × ℕ) (i : ℕ) : ℤ × ℤ × Op :=
  ((((src i).1 % 9 + 1 : ℕ) : ℤ), (((src i).2.1 % 9 + 1 : ℕ) : ℤ),
    opOfIndex ((src i).2.2 % 4))

/-- The rejection test of the `do…while` loop: `continue` exactly when the
operation is DIVISION and (`operand2 === 0` or `operand1 % operand2 !== 0`).
(The `operand2 === 0` disjunct is kept although operands are always ≥ 1.) -/
def rejected (o1 o2 : ℤ) (op : Op) : Bool :=
  decide (op = Op.DIVISION) && (decide (o2 = 0) || decide (o1 % o2 ≠ 0))

/-- `ProblemGenerator.generate` with an injectable random source and explicit
fuel bounding the number of sampling iterations (the JS loop is unbounded;
`none` models running out of fuel before an acceptable sample).  `i` is the
index of the current iteration.  On an accepted sample, a SUBTRACTION with
`operand1 < operand2` swaps the operands (a correction, not a rejection)
before the problem is constructed. -/
def generate (src : ℕ → ℕ × ℕ × ℕ) : ℕ → ℕ → Option MathProblem
  | 0, _ => none
  | fuel + 1, i =>
    if rejected (sample src i).1 (sample src i).2.1 (sample src i).2.2 then
      generate src fuel (i + 1)
    else if (sample src i).2.2 = Op.SUBTRACTION ∧ (sample src i).1 < (sample src i).2.1 then
      some (MathProblem.make (sample src i).2.1 (sample src i).1 (sample src i).2.2)
    else
      some (MathProblem.make (sample src i).1 (sample src i).2.1 (sample src i).2.2)

/-! ## `ScoreManager` -/

/-- A persisted score record `{name, score, date}`. -/
structure ScoreRecord where
  name : String
  score : ℤ
  date : String
deriving DecidableEq

/-- The contents of the `localStorage` slot under `'math_game_scores'`:
the slot can be absent (`getItem` returns `null`, defaulted to `'[]'`),
hold an unparsable string (`JSON.parse` throws), or hold a parsable
serialization of a record list. -/
inductive StoredValue
  | absent
  | corrupted
  | valid (scores : List ScoreRecord)
deriving DecidableEq

/-- The sort relation induced by the comparator `(a, b) => b.score - a.score`
(descending by score). -/
def scoreDesc (a b : ScoreRecord) : Prop := b.score ≤ a.score

instance : DecidableRel scoreDesc := fun a b =>
  inferInstanceAs (Decidable (b.score ≤ a.score))

instance : IsTotal ScoreRecord scoreDesc :=
  ⟨fun a b => (le_total b.score a.score).imp id id⟩

instance : IsTrans ScoreRecord scoreDesc :=
  ⟨fun _ _ _ h1 h2 => le_trans h2 h1⟩

namespace ScoreManager

/-- `ScoreManager.getTopScores(limit = 5)`:
`JSON.parse(localStorage.getItem(KEY) || '[]')`, then
`.sort((a, b) => b.score - a.score).slice(0, limit)`, with the whole body in
a `try` whose `catch` returns `[]`.  An absent slot parses as `[]`; a
corrupted slot throws in `JSON.parse` and lands in the `catch`; both yield
`[]`, so the function is total (never throws).  The stable descending sort is
modelled by insertion sort on `scoreDesc` (see the header). -/
def getTopScores (store : StoredValue) (limit : ℕ) : List ScoreRecord :=
  match store with
  | .absent => []
  | .corrupted => []
  | .valid scores => (List.insertionSort scoreDesc scores).take limit

/-- `ScoreManager.saveScore(playerName, score)`:
a single `try` wraps the read, `JSON.parse`, `push` and `setItem`, its
`catch` only logs.  Consequently a corrupted slot throws in `JSON.parse`
before anything is written and the slot is left untouched; otherwise the new
record `{name, score, date: now}` is appended and written back, unless the
write itself throws (`writeOk = false`), which is also only logged.  The
function is total (never throws) and returns the new slot contents. -/
def saveScore (store : StoredValue) (writeOk : Bool) (playerName : String)
    (score : ℤ) (now : String) : StoredValue :=
  match store with
  | .corrupted => .corrupted
  | .absent =>
    if writeOk then .valid [⟨playerName, score, now⟩] else .absent
  | .valid scores =>
    if writeOk then .valid (scores ++ [⟨playerName, score, now⟩]) else .valid scores

end ScoreManager

/-! ## The reducer state machine -/

/-- The `GAME_STATES` enum. -/
inductive GamePhase
  | MENU
  | PLAYING
  | GAME_OVER
deriving DecidableEq

/-- The reducer state, fields in source order. -/
structure GameState where
  gameState : GamePhase
  currentProblem : Option MathProblem
  userInput : String
  score : ℤ
  timeRemaining : ℤ
  showSuccess : Bool
  topScores : List ScoreRecord
  playerNameToSave : Option String
deriving DecidableEq

/-- `INITIAL_STATE`. -/
def INITIAL_STATE : GameState :=
  { gameState := .MENU
    currentProblem := none
    userInput := ""
    score := 0
    timeRemaining := 30
    showSuccess := false
    topScores := []
    playerNameToSave := none }

/-- The actions dispatched to the reducer.  `other` stands for any action
whose `type` string is none of the eight recognized ones (the `switch`'s
`default` case). -/
inductive Action
  | START_GAME
  | UPDATE_INPUT (payload : String)
  | CORRECT_ANSWER
  | HIDE_SUCCESS
  | TICK
  | SAVE_SCORE (payload : String)
  | RETURN_TO_MENU
  | LOAD_SCORES
  | other (type : String)

/-- `gameReducer(state, action)`.  The reducer is impure in the source: it
calls `ProblemGenerator.generate()` (START_GAME, CORRECT_ANSWER) and
`ScoreManager.getTopScores()` (RETURN_TO_MENU, LOAD_SCORES).  Those two
effects are passed in explicitly: `gen` is the problem the generator returns
for this dispatch, `store` the current `localStorage` contents.  Note the
`switch` branches on `action.type` only — no branch inspects
`state.gameState`. -/
def gameReducer (store : StoredValue) (gen : MathProblem)
    (state : GameState) (action : Action) : GameState :=
  match action with
  | .START_GAME =>
    { state with
      gameState := .PLAYING
      currentProblem := some gen
      score := 0
      timeRemaining := 30
      userInput := ""
      showSuccess := false }
  | .UPDATE_INPUT payload => { state with userInput := payload }
  | .CORRECT_ANSWER =>
    { state with
      score := state.score + 1
      currentProblem := some gen
      userInput := ""
      showSuccess := true }
  | .HIDE_SUCCESS => { state with showSuccess := false }
  | .TICK =>
    let newTime := max 0 (state.timeRemaining - 1)
    { state with
      timeRemaining := newTime
      gameState := if newTime = 0 then .GAME_OVER else state.gameState }
  | .SAVE_SCORE payload => { state with playerNameToSave := some payload }
  | .RETURN_TO_MENU =>
    { INITIAL_STATE with topScores := ScoreManager.getTopScores store 5 }
  | .LOAD_SCORES => { state with topScores := ScoreManager.getTopScores store 5 }
  | .other _ => state

end MathRush

/-! ## Helper facts about the generator -/

namespace MathRush

/-- A concrete problem used to instantiate universally quantified theorems:
`new MathProblem(1, 1, ADDITION)`. -/
def probEx : MathProblem := MathProblem.make 1 1 .ADDITION

/-- The operands produced by one sampling iteration lie in 1..9. -/
lemma sample_range (src : ℕ → ℕ × ℕ × ℕ) (i : ℕ) :
    (1 ≤ (sample src i).1 ∧ (sample src i).1 ≤ 9) ∧
    (1 ≤ (sample src i).2.1 ∧ (sample src i).2.1 ≤ 9) := by
  have h1 : (src i).1 % 9 < 9 := Nat.mod_lt _ (by omega)
  have h2 : (src i).2.1 % 9 < 9 := Nat.mod_lt _ (by omega)
  simp only [sample]
  omega

/-- Inversion for `generate`: a returned problem comes from an accepted
sampling iteration `j ≥ i`, with the subtraction swap applied. -/
lemma generate_some_inv {src : ℕ → ℕ × ℕ × ℕ} {fuel i : ℕ} {p : MathProblem}
    (h : generate src fuel i = some p) :
    ∃ j, i ≤ j ∧
      rejected (sample src j).1 (sample src j).2.1 (sample src j).2.2 = false ∧
      ((¬((sample src j).2.2 = Op.SUBTRACTION ∧ (sample src j).1 < (sample src j).2.1) ∧
          p = MathProblem.make (sample src j).1 (sample src j).2.1 (sample src j).2.2) ∨
        ((sample src j).2.2 = Op.SUBTRACTION ∧ (sample src j).1 < (sample src j).2.1 ∧
          p = MathProblem.make (sample src j).2.1 (sample src j).1 (sample src j).2.2)) := by
  induction fuel generalizing i with
  | zero => simp [generate] at h
  | succ fuel ih =>
    rw [generate] at h
    by_cases hr : rejected (sample src i).1 (sample src i).2.1 (sample src i).2.2
    · rw [if_pos hr] at h
      obtain ⟨j, hij, hacc, hshape⟩ := ih h
      exact ⟨j, by omega, hacc, hshape⟩
    · rw [if_neg hr] at h
      refine ⟨i, le_refl i, by simpa using hr, ?_⟩
      by_cases hs : (sample src i).2.2 = Op.SUBTRACTION ∧ (sample src i).1 < (sample src i).2.1
      · rw [if_pos hs] at h
        exact Or.inr ⟨hs.1, hs.2, (Option.some_inj.mp h).symm⟩
      · rw [if_neg hs] at h
        exact Or.inl ⟨hs, (Option.some_inj.mp h).symm⟩

/-- An accepted sample of DIVISION has a nonzero second operand that divides
the first without remainder (the rejection test failed). -/
lemma rejected_false_division {o1 o2 : ℤ} {op : Op}
    (h : rejected o1 o2 op = false) (hop : op = Op.DIVISION) :
    o2 ≠ 0 ∧ o1 % o2 = 0 := by
  subst hop
  simp [rejected] at h
  exact ⟨h.1, Int.emod_eq_zero_of_dvd h.2⟩

/-! ## Claim theorems: the generator -/

/-- C2: every problem returned by the generator has operand1 and operand2 in
[1, 9]; if its operation is DIVISION then operand2 ≠ 0 and
operand1 % operand2 = 0; if its operation is SUBTRACTION then
operand1 ≥ operand2. -/
theorem claim_C2_generator_invariants
    (src : ℕ → ℕ × ℕ × ℕ) (fuel i : ℕ) (p : MathProblem)
    (h : generate src fuel i = some p) :
    (1 ≤ p.operand1 ∧ p.operand1 ≤ 9) ∧ (1 ≤ p.operand2 ∧ p.operand2 ≤ 9) ∧
    (p.operation = Op.DIVISION → p.operand2 ≠ 0 ∧ p.operand1 % p.operand2 = 0) ∧
    (p.operation = Op.SUBTRACTION → p.operand2 ≤ p.operand1) := by
  obtain ⟨j, -, hacc, hshape⟩ := generate_some_inv h
  obtain ⟨⟨h11, h12⟩, h21, h22⟩ := sample_range src j
  rcases hshape with ⟨hno, hp⟩ | ⟨hsub, hlt, hp⟩
  · subst hp
    refine ⟨⟨h11, h12⟩, ⟨h21, h22⟩, fun hdiv => ?_, fun hsub => ?_⟩
    · exact rejected_false_division hacc hdiv
    · simp only [MathProblem.make] at hsub ⊢
      rcases not_and_or.mp hno with hc | hc
      · exact absurd hsub hc
      · omega
  · subst hp
    exact ⟨⟨h21, h22⟩, ⟨h11, h12⟩, fun hdiv => by rw [MathProblem.make] at hdiv; simp_all,
      fun _ => le_of_lt hlt⟩

/-- C2 witness: a concrete run of the generator satisfying the hypothesis. -/
theorem claim_C2_generator_invariants_witness :
    generate (fun _ => (0, 0, 0)) 1 0 = some probEx ∧
    (1 ≤ probEx.operand1 ∧ probEx.operand1 ≤ 9) ∧
    (1 ≤ probEx.operand2 ∧ probEx.operand2 ≤ 9) ∧
    (probEx.operation = Op.DIVISION → probEx.operand2 ≠ 0 ∧
      probEx.operand1 % probEx.operand2 = 0) ∧
    (probEx.operation = Op.SUBTRACTION → probEx.operand2 ≤ probEx.operand1) := by
  have hgen : generate (fun _ => (0, 0, 0)) 1 0 = some probEx := by
    simp +decide [generate, sample, rejected, opOfIndex, probEx]
  exact ⟨hgen, claim_C2_generator_invariants (fun _ => (0, 0, 0)) 1 0 probEx hgen⟩

/-- Fueled termination: if iteration `j` would be accepted and the fuel
covers iterations `i..j`, the loop returns a problem. -/
lemma generate_some_of_accept {src : ℕ → ℕ × ℕ × ℕ} {j : ℕ}
    (hacc : rejected (sample src j).1 (sample src j).2.1 (sample src j).2.2 = false) :
    ∀ fuel i, i ≤ j → j < i + fuel → ∃ p, generate src fuel i = some p := by
  intro fuel
  induction fuel with
  | zero => intro i h1 h2; omega
  | succ fuel ih =>
    intro i h1 h2
    rw [generate]
    by_cases hr : rejected (sample src i).1 (sample src i).2.1 (sample src i).2.2
    · rw [if_pos hr]
      have hij : i ≠ j := by
        intro he
        rw [he, hacc] at hr
        exact Bool.false_ne_true hr
      exact ih (i + 1) (by omega) (by omega)
    · rw [if_neg hr]
      by_cases hs : (sample src i).2.2 = Op.SUBTRACTION ∧ (sample src i).1 < (sample src i).2.1
      · rw [if_pos hs]; exact ⟨_, rfl⟩
      · rw [if_neg hs]; exact ⟨_, rfl⟩

/-- C9: the rejection-sampling loop terminates for every random source that
eventually yields an acceptable combination: if iteration `j ≥ i` satisfies
the constraints, `generate` started at iteration `i` returns a problem within
`j - i + 1` iterations. -/
theorem claim_C9_generator_terminates (src : ℕ → ℕ × ℕ × ℕ) (i j : ℕ)
    (hij : i ≤ j)
    (hacc : rejected (sample src j).1 (sample src j).2.1 (sample src j).2.2 = false) :
    ∃ p, generate src (j - i + 1) i = some p :=
  generate_some_of_accept hacc (j - i + 1) i hij (by omega)

/-- C9 witness: a concrete source whose first iteration is acceptable. -/
theorem claim_C9_generator_terminates_witness :
    rejected (sample (fun _ => (0, 0, 0)) 0).1 (sample (fun _ => (0, 0, 0)) 0).2.1
      (sample (fun _ => (0, 0, 0)) 0).2.2 = false ∧
    ∃ p, generate (fun _ => (0, 0, 0)) (0 - 0 + 1) 0 = some p := by
  have hacc : rejected (sample (fun _ => (0, 0, 0)) 0).1 (sample (fun _ => (0, 0, 0)) 0).2.1
      (sample (fun _ => (0, 0, 0)) 0).2.2 = false := by decide
  exact ⟨hacc, claim_C9_generator_terminates (fun _ => (0, 0, 0)) 0 0 (le_refl 0) hacc⟩

end MathRush

/-! ## Claim theorems: the reducer state machine -/

namespace MathRush

/-- C1 counterexample: `Tick` is not listed as valid in the `Menu` phase,
yet dispatching it to the initial (Menu) state is not a no-op — the reducer
decrements `timeRemaining` regardless of the phase, because the `switch`
branches on the action type only. -/
theorem claim_C1_counterexample :
    gameReducer .absent probEx INITIAL_STATE .TICK ≠ INITIAL_STATE := by
  intro h
  have := congrArg GameState.timeRemaining h
  simp [gameReducer, INITIAL_STATE] at this

/-- C1 amended: the reducer does not gate events by phase.  An action whose
type is none of the eight recognized ones (the `switch`'s `default` case) is
a no-op in every phase; each of the eight recognized action types applies
its effect in every phase — the equations below hold for an arbitrary state
`st`, whatever `st.gameState` is: StartGame restarts into Playing,
UpdateInput overwrites the buffer, CorrectAnswer bumps the score and swaps
in the fresh problem, HideSuccess clears the flag, Tick runs the clock,
SaveScore stages the name, ReturnToMenu resets to the initial state with
refreshed topScores, LoadScores refreshes topScores. -/
theorem claim_C1_amended (store : StoredValue) (gen : MathProblem)
    (st : GameState) :
    (∀ s : String, gameReducer store gen st (.other s) = st) ∧
    gameReducer store gen st .START_GAME =
      { st with
        gameState := .PLAYING
        currentProblem := some gen
        score := 0
        timeRemaining := 30
        userInput := ""
        showSuccess := false } ∧
    (∀ payload : String, gameReducer store gen st (.UPDATE_INPUT payload) =
      { st with userInput := payload }) ∧
    gameReducer store gen st .CORRECT_ANSWER =
      { st with
        score := st.score + 1
        currentProblem := some gen
        userInput := ""
        showSuccess := true } ∧
    gameReducer store gen st .HIDE_SUCCESS = { st with showSuccess := false } ∧
    gameReducer store gen st .TICK =
      { st with
        timeRemaining := max 0 (st.timeRemaining - 1)
        gameState :=
          if max 0 (st.timeRemaining - 1) = 0 then .GAME_OVER else st.gameState } ∧
    (∀ payload : String, gameReducer store gen st (.SAVE_SCORE payload) =
      { st with playerNameToSave := some payload }) ∧
    gameReducer store gen st .RETURN_TO_MENU =
      { INITIAL_STATE with topScores := ScoreManager.getTopScores store 5 } ∧
    gameReducer store gen st .LOAD_SCORES =
      { st with topScores := ScoreManager.getTopScores store 5 } :=
  ⟨fun _ => rfl, rfl, fun _ => rfl, rfl, rfl, rfl, fun _ => rfl, rfl, rfl⟩

/-- After a `TICK`, a state whose clock was already ≤ 1 is at 0 and GameOver. -/
lemma tick_absorb (store : StoredValue) (gen : MathProblem) (st : GameState)
    (h : st.timeRemaining ≤ 1) :
    (gameReducer store gen st .TICK).timeRemaining = 0 ∧
    (gameReducer store gen st .TICK).gameState = .GAME_OVER := by
  have h0 : max 0 (st.timeRemaining - 1) = 0 := by omega
  constructor
  · simp [gameReducer, h0]
  · simp [gameReducer, h0]

/-- C3: `Tick` sets `timeRemaining` to `max(0, timeRemaining - 1)` (hence it
never goes negative); when the new value is 0 the phase becomes GameOver;
and starting from `timeRemaining = 1` in Playing, repeated `Tick`s put the
phase at GameOver from the first tick on and keep the clock at 0 — the
Playing → GameOver transition happens exactly once. -/
theorem claim_C3_tick (store : StoredValue) (gen : MathProblem) :
    (∀ st : GameState,
      (gameReducer store gen st .TICK).timeRemaining = max 0 (st.timeRemaining - 1) ∧
      0 ≤ (gameReducer store gen st .TICK).timeRemaining ∧
      ((gameReducer store gen st .TICK).timeRemaining = 0 →
        (gameReducer store gen st .TICK).gameState = .GAME_OVER)) ∧
    (∀ st : GameState, st.gameState = .PLAYING → st.timeRemaining = 1 →
      ∀ k : ℕ,
        ((fun s => gameReducer store gen s .TICK)^[k + 1] st).gameState = .GAME_OVER ∧
        ((fun s => gameReducer store gen s .TICK)^[k + 1] st).timeRemaining = 0) := by
  constructor
  · intro st
    refine ⟨rfl, le_max_left 0 _, fun h => ?_⟩
    simp only [gameReducer] at h ⊢
    rw [if_pos h]
  · intro st _ h1 k
    induction k with
    | zero =>
      have := tick_absorb store gen st (by omega)
      simpa [Function.iterate_one] using ⟨this.2, this.1⟩
    | succ k ih =>
      rw [Function.iterate_succ_apply']
      have := tick_absorb store gen _ (by rw [ih.2]; norm_num)
      exact ⟨this.2, this.1⟩

/-- C3 witness: the theorem instantiated at a concrete Playing state with
one second left. -/
theorem claim_C3_tick_witness :
    (({ INITIAL_STATE with gameState := .PLAYING, timeRemaining := 1 } :
        GameState).gameState = GamePhase.PLAYING) ∧
    ((fun s => gameReducer .absent probEx s .TICK)^[1]
        { INITIAL_STATE with gameState := .PLAYING, timeRemaining := 1 }).gameState =
      .GAME_OVER := by
  refine ⟨rfl, ?_⟩
  exact ((claim_C3_tick .absent probEx).2
    { INITIAL_STATE with gameState := .PLAYING, timeRemaining := 1 } rfl rfl 0).1

/-- C7: `ReturnToMenu`, from any phase and any state, yields the initial
state except for `topScores`, which is refreshed from the store (with the
default limit 5); in particular phase is Menu and score, timeRemaining,
userInput, currentProblem, showSuccess, playerNameToSave all carry their
initial values. -/
theorem claim_C7_return_to_menu (store : StoredValue) (gen : MathProblem)
    (st : GameState) :
    gameReducer store gen st .RETURN_TO_MENU =
      { INITIAL_STATE with topScores := ScoreManager.getTopScores store 5 } ∧
    (gameReducer store gen st .RETURN_TO_MENU).gameState = .MENU ∧
    (gameReducer store gen st .RETURN_TO_MENU).score = INITIAL_STATE.score ∧
    (gameReducer store gen st .RETURN_TO_MENU).timeRemaining = INITIAL_STATE.timeRemaining ∧
    (gameReducer store gen st .RETURN_TO_MENU).userInput = INITIAL_STATE.userInput ∧
    (gameReducer store gen st .RETURN_TO_MENU).currentProblem = INITIAL_STATE.currentProblem ∧
    (gameReducer store gen st .RETURN_TO_MENU).showSuccess = INITIAL_STATE.showSuccess ∧
    (gameReducer store gen st .RETURN_TO_MENU).playerNameToSave = INITIAL_STATE.playerNameToSave ∧
    (gameReducer store gen st .RETURN_TO_MENU).topScores = ScoreManager.getTopScores store 5 :=
  ⟨rfl, rfl, rfl, rfl, rfl, rfl, rfl, rfl, rfl⟩

/-! ## Claim theorems: `saveScore` -/

/-- C5 counterexample: with a corrupted stored value, `saveScore` does NOT
append the new record to an empty collection — `JSON.parse` throws inside
the same `try` that performs the write, so the save is aborted and nothing
is written (the slot stays corrupted). -/
theorem claim_C5_counterexample :
    ScoreManager.saveScore .corrupted true "Ana" 7 "2026-10-11T00:00:00.000Z" =
      .corrupted ∧
    ScoreManager.saveScore .corrupted true "Ana" 7 "2026-10-11T00:00:00.000Z" ≠
      .valid [⟨"Ana", 7, "2026-10-11T00:00:00.000Z"⟩] :=
  ⟨rfl, by decide⟩

/-- C5 amended: `saveScore` never throws; when the stored value is absent or
parses, it appends the record {name, score, timestamp} and writes the
collection back, unless the write itself fails, in which case (as for any
failure) the error is only logged and the store is left unchanged; when the
stored value is corrupted, the parse failure aborts the save inside the same
try/catch, so nothing is appended or written. -/
theorem claim_C5_amended (writeOk : Bool) (playerName : String) (score : ℤ)
    (now : String) :
    ScoreManager.saveScore .corrupted writeOk playerName score now = .corrupted ∧
    ScoreManager.saveScore .absent writeOk playerName score now =
      (if writeOk then .valid [⟨playerName, score, now⟩] else .absent) ∧
    ∀ l, ScoreManager.saveScore (.valid l) writeOk playerName score now =
      (if writeOk then .valid (l ++ [⟨playerName, score, now⟩]) else .valid l) :=
  ⟨rfl, rfl, fun _ => rfl⟩

end MathRush

/-! ## Claim theorems: `getTopScores` -/

namespace MathRush

/-- Filtering on one score value commutes with `orderedInsert`: the inserted
record goes in front of the records of equal score already present, because
those were inserted later in the fold (stability of the insertion). -/
lemma filter_orderedInsert (k : ℤ) (a : ScoreRecord) (l : List ScoreRecord) :
    (List.orderedInsert scoreDesc a l).filter (fun r => r.score == k) =
      if a.score = k then a :: l.filter (fun r => r.score == k)
      else l.filter (fun r => r.score == k) := by
  induction l with
  | nil => by_cases hk : a.score = k <;> simp [List.orderedInsert, hk]
  | cons x xs ih =>
    rw [List.orderedInsert]
    by_cases hr : scoreDesc a x
    · rw [if_pos hr]
      by_cases hk : a.score = k <;> simp [List.filter_cons, hk]
    · rw [if_neg hr]
      by_cases hk : a.score = k
      · have hx : ¬(x.score = k) := by
          intro hxk
          exact hr (by simp [scoreDesc, hk, hxk])
        simp [List.filter_cons, hk, hx, ih]
      · by_cases hx : x.score = k <;> simp [List.filter_cons, hk, hx, ih]

/-- Stability of the modelled sort: among the records of any one score
value, the sorted list keeps the original insertion order. -/
lemma filter_insertionSort (k : ℤ) (l : List ScoreRecord) :
    (List.insertionSort scoreDesc l).filter (fun r => r.score == k) =
      l.filter (fun r => r.score == k) := by
  induction l with
  | nil => rfl
  | cons x xs ih =>
    rw [List.insertionSort, filter_orderedInsert]
    by_cases hk : x.score = k <;> simp [List.filter_cons, hk, ih]

/-- C4: `getTopScores` is total (never throws) and returns `[]` when the
stored value is absent or corrupted; otherwise it returns the stored
collection sorted descending by score — keeping ties in their original
insertion order — truncated to `limit`; and on the stored scores
[5, 9, 2, 9, 1] (inserted in that order) `getTopScores 3` returns the
records with scores [9, 9, 5], the two 9-records in their original relative
order. -/
theorem claim_C4_getTopScores :
    (∀ limit : ℕ, ScoreManager.getTopScores .absent limit = [] ∧
      ScoreManager.getTopScores .corrupted limit = []) ∧
    (∀ (scores : List ScoreRecord) (limit : ℕ),
      ∃ sorted : List ScoreRecord,
        sorted.Perm scores ∧
        sorted.Sorted scoreDesc ∧
        (∀ k : ℤ, sorted.filter (fun r => r.score == k) =
          scores.filter (fun r => r.score == k)) ∧
        ScoreManager.getTopScores (.valid scores) limit = sorted.take limit ∧
        (ScoreManager.getTopScores (.valid scores) limit).Sorted scoreDesc ∧
        (ScoreManager.getTopScores (.valid scores) limit).length ≤ limit) ∧
    ScoreManager.getTopScores
        (.valid [⟨"A", 5, "d1"⟩, ⟨"B", 9, "d2"⟩, ⟨"C", 2, "d3"⟩, ⟨"D", 9, "d4"⟩,
          ⟨"E", 1, "d5"⟩]) 3 =
      [⟨"B", 9, "d2"⟩, ⟨"D", 9, "d4"⟩, ⟨"A", 5, "d1"⟩] := by
  refine ⟨fun limit => ⟨rfl, rfl⟩, fun scores limit => ?_, by decide⟩
  refine ⟨List.insertionSort scoreDesc scores,
    List.perm_insertionSort scoreDesc scores,
    List.sorted_insertionSort scoreDesc scores,
    fun k => filter_insertionSort k scores, rfl, ?_, ?_⟩
  · exact List.Pairwise.sublist (List.take_sublist _ _)
      (List.sorted_insertionSort scoreDesc scores)
  · exact List.length_take_le limit _

end MathRush

/-! ## Claim theorems: `isCorrect` -/

namespace MathRush

/-- C6: `isCorrect` is total (never throws); it returns false when the input
does not parse as a number, and on a parsed value it returns true exactly
when the absolute difference with the precomputed answer is strictly below
0.01; in particular `"not a number"` is rejected. -/
theorem claim_C6_isCorrect (p : MathProblem) (s : String) :
    (parseFloat s = none → p.isCorrect s = false) ∧
    (∀ x : ℚ, parseFloat s = some x →
      (p.isCorrect s = true ↔ |x - p.answer| < 1 / 100)) ∧
    p.isCorrect "not a number" = false := by
  have hnan : parseFloat "not a number" = none := by decide
  refine ⟨fun h => ?_, fun x h => ?_, ?_⟩
  · rw [MathProblem.isCorrect, h]
  · rw [MathProblem.isCorrect, h]
    exact decide_eq_true_iff
  · rw [MathProblem.isCorrect, hnan]

/-- C6 witness: the theorem instantiated with the parsed input `"7"`. -/
theorem claim_C6_isCorrect_witness :
    parseFloat "7" = some 7 ∧
    (probEx.isCorrect "7" = true ↔ |(7 : ℚ) - probEx.answer| < 1 / 100) := by
  have h7 : parseFloat "7" = some 7 := by
    simp +decide [parseFloat, parseFloatR, parseMant, parseExp, parseSign, wsChar,
      digitsToNat, digitVal]
  exact ⟨h7, (claim_C6_isCorrect probEx "7").2.1 7 h7⟩

/-! ## Decimal rendering of natural numbers (`Number.prototype.toString`)

`toString(problem.answer)` in the round-trip claim is the JS number-to-string
conversion.  For the values a generated problem's `answer` can take — and it
is proved below that these are always natural numbers — that conversion is
the plain decimal numeral, modelled here. -/

/-- Decimal digit character (`d` is always a digit value where used). -/
def digitChar : ℕ → Char
  | 0 => '0'
  | 1 => '1'
  | 2 => '2'
  | 3 => '3'
  | 4 => '4'
  | 5 => '5'
  | 6 => '6'
  | 7 => '7'
  | 8 => '8'
  | _ => '9'

/-- Decimal digits of `n`, most significant first, prepended to `acc`. -/
def natToDigits (n : ℕ) (acc : List Char) : List Char :=
  if h : n = 0 then acc
  else natToDigits (n / 10) (digitChar (n % 10) :: acc)
termination_by n
decreasing_by exact Nat.div_lt_self (Nat.pos_of_ne_zero h) (by omega)

/-- JS `Number.prototype.toString` on a natural number: its decimal
numeral. -/
def natToString (n : ℕ) : String :=
  if n = 0 then "0" else String.mk (natToDigits n [])

/-- JS `Number.prototype.toString` restricted to integral values, the only
values a generated problem's answer takes (integral rationals have
denominator 1, so the numerator is the value).  Non-integral rationals,
which JS would print with a decimal point or exponent, never arise in the
claims and are not modelled. -/
def jsNumberToString (q : ℚ) : String :=
  if q.num < 0 then "-" ++ natToString q.num.natAbs else natToString q.num.natAbs

lemma digitChar_isDigit (d : ℕ) : (digitChar d).isDigit = true := by
  unfold digitChar
  split <;> decide

lemma digitVal_digitChar {d : ℕ} (h : d < 10) : digitVal (digitChar d) = d := by
  interval_cases d <;> decide

lemma natToDigits_zero (acc : List Char) : natToDigits 0 acc = acc := by
  rw [natToDigits]
  exact dif_pos rfl

lemma natToDigits_step {n : ℕ} (h : n ≠ 0) (acc : List Char) :
    natToDigits n acc = natToDigits (n / 10) (digitChar (n % 10) :: acc) := by
  rw [natToDigits, dif_neg h]

lemma natToDigits_append_acc (n : ℕ) :
    ∀ acc, natToDigits n acc = natToDigits n [] ++ acc := by
  induction n using Nat.strong_induction_on with
  | _ n ih =>
    intro acc
    by_cases h : n = 0
    · subst h
      simp [natToDigits_zero]
    · have hlt : n / 10 < n := Nat.div_lt_self (Nat.pos_of_ne_zero h) (by omega)
      rw [natToDigits_step h acc, natToDigits_step h ([] : List Char),
        ih (n / 10) hlt (digitChar (n % 10) :: acc), ih (n / 10) hlt [digitChar (n % 10)]]
      simp

lemma digitsToNat_append_singleton (ds : List Char) (c : Char) :
    digitsToNat (ds ++ [c]) = 10 * digitsToNat ds + digitVal c := by
  simp [digitsToNat, List.foldl_append]

lemma digitsToNat_natToDigits (n : ℕ) : digitsToNat (natToDigits n []) = n := by
  induction n using Nat.strong_induction_on with
  | _ n ih =>
    by_cases h : n = 0
    · subst h
      rw [natToDigits]
      simp [digitsToNat]
    · have hlt : n / 10 < n := Nat.div_lt_self (Nat.pos_of_ne_zero h) (by omega)
      rw [natToDigits, dif_neg h, natToDigits_append_acc, digitsToNat_append_singleton,
        ih (n / 10) hlt, digitVal_digitChar (Nat.mod_lt n (by omega))]
      omega

lemma natToDigits_all_digits :
    ∀ n acc, (∀ c ∈ acc, c.isDigit = true) →
      ∀ c ∈ natToDigits n acc, c.isDigit = true := by
  intro n
  induction n using Nat.strong_induction_on with
  | _ n ih =>
    intro acc hacc c hc
    by_cases h : n = 0
    · subst h
      rw [natToDigits] at hc
      exact hacc c (by simpa using hc)
    · have hlt : n / 10 < n := Nat.div_lt_self (Nat.pos_of_ne_zero h) (by omega)
      rw [natToDigits, dif_neg h] at hc
      refine ih (n / 10) hlt (digitChar (n % 10) :: acc) ?_ c hc
      intro c' hc'
      rcases List.mem_cons.mp hc' with h' | h'
      · subst h'
        exact digitChar_isDigit _
      · exact hacc c' h'

lemma natToDigits_ne_nil {n : ℕ} (h : n ≠ 0) : natToDigits n [] ≠ [] := by
  rw [natToDigits, dif_neg h, natToDigits_append_acc]
  simp

/-- A digit character is not whitespace and is none of the structural
characters of the numeric grammar. -/
lemma isDigit_not_special {c : Char} (h : c.isDigit = true) :
    wsChar c = false ∧ c ≠ '-' ∧ c ≠ '+' ∧ c ≠ '.' ∧ c ≠ 'e' ∧ c ≠ 'E' := by
  refine ⟨?_, ?_, ?_, ?_, ?_, ?_⟩
  · rw [Bool.eq_false_iff]
    intro hw
    rw [wsChar] at hw
    simp only [Bool.or_eq_true, decide_eq_true_eq] at hw
    rcases hw with ((h1 | h1) | h1) | h1 <;> subst h1 <;> exact absurd h (by decide)
  all_goals exact fun h1 => absurd (h1 ▸ h) (by decide)

lemma parseMant_all_digits {l : List Char} (hne : l ≠ [])
    (hall : ∀ c ∈ l, Char.isDigit c = true) :
    parseMant l = some ((digitsToNat l : ℚ), []) := by
  have ht : l.takeWhile Char.isDigit = l := List.takeWhile_eq_self_iff.mpr hall
  have hd : l.dropWhile Char.isDigit = [] := List.dropWhile_eq_nil_iff.mpr hall
  rw [parseMant]
  simp only [ht, hd]
  rw [if_neg (by simpa [List.isEmpty_iff] using hne)]

/-- A nonempty all-digits list parses as its decimal value with nothing left
over. -/
lemma parseFloatR_all_digits {l : List Char} (hne : l ≠ [])
    (hall : ∀ c ∈ l, Char.isDigit c = true) :
    parseFloatR l = some ((digitsToNat l : ℚ), []) := by
  obtain ⟨c, t, rfl⟩ := List.exists_cons_of_ne_nil hne
  have hc : Char.isDigit c = true := hall c (List.mem_cons_self c t)
  obtain ⟨hw, hm, hp, -, -, -⟩ := isDigit_not_special hc
  have hdw : List.dropWhile wsChar (c :: t) = c :: t :=
    List.dropWhile_cons_of_neg (by simp [hw])
  have hsig : parseSign (c :: t) = (false, c :: t) := by
    rw [parseSign, if_neg hm, if_neg hp]
  rw [parseFloatR]
  simp only [hdw, hsig, parseMant_all_digits hne hall, parseExp]
  simp

lemma parseFloat_natToString (n : ℕ) : parseFloat (natToString n) = some ((n : ℕ) : ℚ) := by
  by_cases h : n = 0
  · subst h
    rw [natToString]
    simp only [if_pos rfl]
    have : parseFloat "0" = some ((0 : ℕ) : ℚ) := by
      have h0 : parseFloatR "0".data = some (((0 : ℕ) : ℚ), []) :=
        parseFloatR_all_digits (by decide) (by decide)
      rw [parseFloat, h0]
      rfl
    exact this
  · rw [natToString, if_neg h, parseFloat]
    have hdata : (String.mk (natToDigits n [])).data = natToDigits n [] := rfl
    rw [hdata, parseFloatR_all_digits (natToDigits_ne_nil h)
      (natToDigits_all_digits n [] (by simp)), digitsToNat_natToDigits]
    rfl

end MathRush

/-! ## Claim theorems: answer round-trip -/

namespace MathRush

/-- The answer of a problem built from an accepted sample is a natural
number: addition/multiplication of positive integers, subtraction with the
operands ordered, and division only when exact. -/
lemma make_answer_natCast {a b : ℤ} {op : Op} (ha : 1 ≤ a) (hb : 1 ≤ b)
    (hdiv : op = Op.DIVISION → b ≠ 0 ∧ b ∣ a)
    (hsub : op = Op.SUBTRACTION → b ≤ a) :
    ∃ m : ℕ, (MathProblem.make a b op).answer = (m : ℚ) := by
  have key : ∃ z : ℤ, 0 ≤ z ∧ (MathProblem.make a b op).answer = (z : ℚ) := by
    cases op with
    | ADDITION =>
      refine ⟨a + b, by omega, ?_⟩
      simp [MathProblem.make, Op.fn]
    | SUBTRACTION =>
      refine ⟨a - b, by have := hsub rfl; omega, ?_⟩
      simp [MathProblem.make, Op.fn]
    | MULTIPLICATION =>
      refine ⟨a * b, mul_nonneg (by omega) (by omega), ?_⟩
      simp [MathProblem.make, Op.fn]
    | DIVISION =>
      obtain ⟨hb0, hdvd⟩ := hdiv rfl
      obtain ⟨k, hk⟩ := hdvd
      refine ⟨k, ?_, ?_⟩
      · by_contra hneg
        push_neg at hneg
        have h1 : b * k < 0 := mul_neg_of_pos_of_neg (by omega) hneg
        rw [← hk] at h1
        omega
      · simp only [MathProblem.make, Op.fn]
        subst hk
        push_cast
        exact mul_div_cancel_left₀ _ (by exact_mod_cast hb0 : ((b : ℚ) ≠ 0))
  obtain ⟨z, hz, he⟩ := key
  refine ⟨z.toNat, ?_⟩
  rw [he]
  exact_mod_cast (Int.toNat_of_nonneg hz).symm

/-- The answer of every generated problem is a natural number. -/
lemma generated_answer_natCast {src : ℕ → ℕ × ℕ × ℕ} {fuel i : ℕ} {p : MathProblem}
    (h : generate src fuel i = some p) : ∃ m : ℕ, p.answer = (m : ℚ) := by
  obtain ⟨j, -, hacc, hshape⟩ := generate_some_inv h
  obtain ⟨⟨h11, h12⟩, h21, h22⟩ := sample_range src j
  rcases hshape with ⟨hno, hp⟩ | ⟨hsub, hlt, hp⟩
  · subst hp
    refine make_answer_natCast h11 h21 (fun hdiv => ?_) (fun hsub => ?_)
    · obtain ⟨h1, h2⟩ := rejected_false_division hacc hdiv
      exact ⟨h1, Int.dvd_of_emod_eq_zero h2⟩
    · rcases not_and_or.mp hno with hc | hc
      · exact absurd hsub hc
      · omega
  · subst hp
    exact make_answer_natCast h21 h11 (fun hdiv => by rw [hsub] at hdiv; cases hdiv)
      (fun _ => le_of_lt hlt)

lemma jsNumberToString_natCast (m : ℕ) : jsNumberToString (m : ℚ) = natToString m := by
  rw [jsNumberToString, Rat.num_natCast,
    if_neg (not_lt.mpr (Int.natCast_nonneg m)), Int.natAbs_ofNat]

/-- C8: for every problem produced by the generator, feeding the decimal
string of its own answer back to `isCorrect` yields true (the answer
round-trips through its string representation). -/
theorem claim_C8_answer_roundtrip (src : ℕ → ℕ × ℕ × ℕ) (fuel i : ℕ)
    (p : MathProblem) (h : generate src fuel i = some p) :
    p.isCorrect (jsNumberToString p.answer) = true := by
  obtain ⟨m, hm⟩ := generated_answer_natCast h
  rw [hm, jsNumberToString_natCast, MathProblem.isCorrect, parseFloat_natToString, hm]
  simp

/-- C8 witness: the round-trip at a concrete generated problem. -/
theorem claim_C8_answer_roundtrip_witness :
    generate (fun _ => (0, 0, 0)) 1 0 = some probEx ∧
    probEx.isCorrect (jsNumberToString probEx.answer) = true := by
  have hgen : generate (fun _ => (0, 0, 0)) 1 0 = some probEx := by
    simp +decide [generate, sample, rejected, opOfIndex, probEx]
  exact ⟨hgen, claim_C8_answer_roundtrip (fun _ => (0, 0, 0)) 1 0 probEx hgen⟩

end MathRush

/-! ## Longest-leading-literal behaviour of `parseFloat` (claim C10) -/

namespace MathRush

/-- The continuation cannot extend a numeric literal: it is empty or starts
with a character that is not a digit and none of `.`, `e`, `E`. -/
def stopsLiteral : List Char → Bool
  | [] => true
  | c :: _ => !c.isDigit && !(c = '.') && !(c = 'e') && !(c = 'E')

lemma stopsLiteral_cons {c : Char} {t : List Char} (h : stopsLiteral (c :: t) = true) :
    c.isDigit = false ∧ ¬(c = '.') ∧ ¬(c = 'e') ∧ ¬(c = 'E') := by
  rw [stopsLiteral] at h
  simp only [Bool.and_eq_true, Bool.not_eq_true', decide_eq_false_iff_not] at h
  exact ⟨h.1.1.1, h.1.1.2, h.1.2, h.2⟩

lemma stopsLiteral_head_not_digit {t : List Char} (h : stopsLiteral t = true) :
    ∀ c, t.head? = some c → Char.isDigit c = false := by
  intro c hc
  cases t with
  | nil => cases hc
  | cons d r =>
    obtain rfl : d = c := by simpa using hc
    exact (stopsLiteral_cons h).1

/-- `dropWhile` stops strictly inside `a`, so appending does not change the
consumed part. -/
lemma dropWhile_append_of_ne_nil {p : Char → Bool} {a : List Char}
    (h : a.dropWhile p ≠ []) (b : List Char) :
    (a ++ b).dropWhile p = a.dropWhile p ++ b := by
  rw [List.dropWhile_append, if_neg (by simpa [List.isEmpty_iff] using h)]

lemma takeWhile_append_of_ne_nil {p : Char → Bool} {a : List Char}
    (h : a.dropWhile p ≠ []) (b : List Char) :
    (a ++ b).takeWhile p = a.takeWhile p := by
  have h2 : (a.takeWhile p).length + (a.dropWhile p).length = a.length := by
    conv_rhs => rw [← List.takeWhile_append_dropWhile p a]
    rw [List.length_append]
  have h3 : 0 < (a.dropWhile p).length := List.length_pos.mpr h
  rw [List.takeWhile_append, if_neg (by omega)]

/-- `a` is consumed whole and the head of `b` stops the scan. -/
lemma takeWhile_all_append {p : Char → Bool} {a b : List Char}
    (ha : ∀ c ∈ a, p c = true) (hb : ∀ c, b.head? = some c → p c = false) :
    (a ++ b).takeWhile p = a ∧ (a ++ b).dropWhile p = b := by
  constructor
  · rw [List.takeWhile_append_of_pos ha]
    cases b with
    | nil => simp
    | cons c t =>
      rw [List.takeWhile_cons, if_neg (by simp [hb c rfl])]
      simp
  · rw [List.dropWhile_append_of_pos ha]
    cases b with
    | nil => simp
    | cons c t => exact List.dropWhile_cons_of_neg (by simp [hb c rfl])

lemma parseExp_stops (m : ℚ) {t : List Char} (h : stopsLiteral t = true) :
    parseExp m t = (m, t) := by
  cases t with
  | nil => rfl
  | cons c r =>
    obtain ⟨-, -, he, hE⟩ := stopsLiteral_cons h
    rw [parseExp, if_neg (by simp [he, hE])]

lemma expSign_append {rest : List Char} (h : rest ≠ []) (t : List Char) :
    expSign (rest ++ t) = ((expSign rest).1, (expSign rest).2 ++ t) := by
  obtain ⟨d, r3, rfl⟩ := List.exists_cons_of_ne_nil h
  by_cases hd : d = '-'
  · simp [expSign, hd]
  · by_cases hp : d = '+'
    · simp [expSign, hd, hp]
    · simp [expSign, hd, hp]

/-- If `parseExp` consumes `r` whole, appending a non-extending continuation
leaves the value unchanged and the continuation unconsumed. -/
lemma parseExp_append {m : ℚ} {r : List Char}
    (h2 : (parseExp m r).2 = []) {t : List Char} (ht : stopsLiteral t = true) :
    parseExp m (r ++ t) = ((parseExp m r).1, t) := by
  cases r with
  | nil =>
    rw [List.nil_append, parseExp_stops m ht]
    rfl
  | cons c rest =>
    by_cases he : (c = 'e' || c = 'E') = true
    · rw [parseExp, if_pos he] at h2
      by_cases hemp : ((expSign rest).2.takeWhile Char.isDigit).isEmpty = true
      · rw [if_pos hemp] at h2
        cases h2
      · have hrest : rest ≠ [] := by
          intro hr
          subst hr
          exact hemp (by rw [expSign]; rfl)
        rw [if_neg hemp] at h2
        have hr4 : (expSign rest).2.dropWhile Char.isDigit = [] := by
          by_cases hs : (expSign rest).1 = true
          · rw [if_pos hs] at h2; exact h2
          · rw [if_neg hs] at h2; exact h2
        have hall : ∀ c ∈ (expSign rest).2, Char.isDigit c = true :=
          List.dropWhile_eq_nil_iff.mp hr4
        have heds : (expSign rest).2.takeWhile Char.isDigit = (expSign rest).2 :=
          List.takeWhile_eq_self_iff.mpr hall
        have hemp2 : ¬((expSign rest).2).isEmpty = true := fun hie =>
          hemp (by rw [heds]; exact hie)
        have hta := takeWhile_all_append hall (stopsLiteral_head_not_digit ht)
        have hfst : (parseExp m (c :: rest)).1 =
            (if (expSign rest).1 = true
              then m / 10 ^ digitsToNat ((expSign rest).2.takeWhile Char.isDigit)
              else m * 10 ^ digitsToNat ((expSign rest).2.takeWhile Char.isDigit)) := by
          rw [parseExp, if_pos he, if_neg hemp]
          by_cases hs : (expSign rest).1 = true
          · rw [if_pos hs, if_pos hs]
          · rw [if_neg hs, if_neg hs]
        rw [hfst, List.cons_append, parseExp, if_pos he, expSign_append hrest t, hta.1,
          hta.2, if_neg hemp2, heds]
        by_cases hs : (expSign rest).1 = true
        · rw [if_pos hs, if_pos hs]
        · rw [if_neg hs, if_neg hs]
    · rw [parseExp, if_neg he] at h2
      cases h2

end MathRush

namespace MathRush

/-- If the mantissa scan of `l` leaves `r`, scanning `l ++ t` leaves
`r ++ t` with the same value (for a non-extending `t`). -/
lemma parseMant_append {l r : List Char} {m : ℚ}
    (h : parseMant l = some (m, r)) {t : List Char} (ht : stopsLiteral t = true) :
    parseMant (l ++ t) = some (m, r ++ t) := by
  cases hr1 : l.dropWhile Char.isDigit with
  | nil =>
    have hall : ∀ c ∈ l, Char.isDigit c = true := List.dropWhile_eq_nil_iff.mp hr1
    have htw : l.takeWhile Char.isDigit = l := List.takeWhile_eq_self_iff.mpr hall
    rw [parseMant] at h
    simp only [hr1, htw] at h
    by_cases hle : l.isEmpty = true
    · rw [if_pos hle] at h
      exact absurd h (by simp)
    · rw [if_neg hle] at h
      rw [Option.some_inj, Prod.mk.injEq] at h
      obtain ⟨hm, hr⟩ := h
      subst hm
      subst hr
      have hta := takeWhile_all_append hall (stopsLiteral_head_not_digit ht)
      rw [parseMant]
      simp only [hta.1, hta.2]
      cases t with
      | nil => simp [hle]
      | cons c t' =>
        obtain ⟨-, hdot, -, -⟩ := stopsLiteral_cons ht
        simp [hle, hdot]
  | cons c1 r2 =>
    have hne : l.dropWhile Char.isDigit ≠ [] := by rw [hr1]; simp
    have htk := takeWhile_append_of_ne_nil hne t
    have hdr := dropWhile_append_of_ne_nil hne t
    rw [hr1] at hdr
    rw [parseMant] at h
    simp only [hr1] at h
    rw [parseMant]
    simp only [htk, hdr, List.cons_append]
    by_cases hdot : c1 = '.'
    · rw [if_pos hdot] at h ⊢
      cases hr3 : r2.dropWhile Char.isDigit with
      | nil =>
        have hall2 : ∀ c ∈ r2, Char.isDigit c = true := List.dropWhile_eq_nil_iff.mp hr3
        have htw2 : r2.takeWhile Char.isDigit = r2 := List.takeWhile_eq_self_iff.mpr hall2
        simp only [hr3, htw2] at h
        by_cases hcond : ((l.takeWhile Char.isDigit).isEmpty && r2.isEmpty) = true
        · rw [if_pos hcond] at h
          exact absurd h (by simp)
        · rw [if_neg hcond] at h
          rw [Option.some_inj, Prod.mk.injEq] at h
          obtain ⟨hm, hr⟩ := h
          subst hm
          subst hr
          have hta2 := takeWhile_all_append hall2 (stopsLiteral_head_not_digit ht)
          simp only [hta2.1, hta2.2, htw2]
          rw [if_neg hcond]
          simp
      | cons c3 r4 =>
        have hne2 : r2.dropWhile Char.isDigit ≠ [] := by rw [hr3]; simp
        have htk2 := takeWhile_append_of_ne_nil hne2 t
        have hdr2 := dropWhile_append_of_ne_nil hne2 t
        rw [hr3] at h hdr2
        simp only [htk2, hdr2]
        by_cases hcond : ((l.takeWhile Char.isDigit).isEmpty &&
            (r2.takeWhile Char.isDigit).isEmpty) = true
        · rw [if_pos hcond] at h
          exact absurd h (by simp)
        · rw [if_neg hcond] at h
          rw [Option.some_inj, Prod.mk.injEq] at h
          obtain ⟨hm, hr⟩ := h
          subst hm
          subst hr
          rw [if_neg hcond]
    · rw [if_neg hdot] at h ⊢
      by_cases hie : (l.takeWhile Char.isDigit).isEmpty = true
      · rw [if_pos hie] at h
        exact absurd h (by simp)
      · rw [if_neg hie] at h ⊢
        rw [Option.some_inj, Prod.mk.injEq] at h
        obtain ⟨hm, hr⟩ := h
        subst hm
        subst hr
        simp

lemma parseSign_append {l : List Char} (h : l ≠ []) (t : List Char) :
    parseSign (l ++ t) = ((parseSign l).1, (parseSign l).2 ++ t) := by
  obtain ⟨c, r, rfl⟩ := List.exists_cons_of_ne_nil h
  by_cases hm : c = '-'
  · simp [parseSign, hm]
  · by_cases hp : c = '+'
    · simp [parseSign, hm, hp]
    · simp [parseSign, hm, hp]

/-- C10 core: a character list that `parseFloat` consumes whole keeps its
value when a non-extending continuation is appended, and the continuation
is left unconsumed. -/
lemma parseFloatR_append {n t : List Char} {x : ℚ}
    (h : parseFloatR n = some (x, [])) (ht : stopsLiteral t = true) :
    parseFloatR (n ++ t) = some (x, t) := by
  rw [parseFloatR] at h
  cases hm : parseMant (parseSign (n.dropWhile wsChar)).2 with
  | none =>
    rw [hm] at h
    exact absurd h (by simp)
  | some pr =>
    obtain ⟨m, r⟩ := pr
    rw [hm] at h
    rw [Option.some_inj, Prod.mk.injEq] at h
    obtain ⟨hval, hsnd⟩ := h
    have hl1 : n.dropWhile wsChar ≠ [] := by
      intro he
      rw [he] at hm
      rw [parseSign] at hm
      rw [parseMant] at hm
      simp at hm
    have hdw : (n ++ t).dropWhile wsChar = n.dropWhile wsChar ++ t :=
      dropWhile_append_of_ne_nil hl1 t
    have hps := parseSign_append hl1 t
    rw [parseFloatR, hdw, hps, parseMant_append hm ht]
    simp only [parseExp_append hsnd ht]
    rw [← hval]

end MathRush

namespace MathRush

/-- A concrete problem with answer 7, for the C10 instance. -/
def probEx7 : MathProblem := MathProblem.make 3 4 .ADDITION

/-- C10: `isCorrect` does not require the whole input to be numeric.
`parseFloat` reads the longest leading numeric literal and ignores the rest:
for every problem, every string `n` that parses whole as a literal of value
`x` within 0.01 of the answer, and every continuation `t` that is empty or
starts with a non-extending character (not a digit, not `.`/`e`/`E`),
`isCorrect` accepts `n ++ t` — e.g. `"7abc"` when the answer is 7. -/
theorem claim_C10_leading_literal (p : MathProblem) (n t : String) (x : ℚ)
    (hn : parseFloatR n.data = some (x, []))
    (ht : stopsLiteral t.data = true)
    (hx : |x - p.answer| < 1 / 100) :
    p.isCorrect (n ++ t) = true := by
  have hdata : (n ++ t).data = n.data ++ t.data := rfl
  rw [MathProblem.isCorrect, parseFloat, hdata, parseFloatR_append hn ht]
  simpa using hx

/-- C10 witness: `"7abc"` is accepted when the answer is 7. -/
theorem claim_C10_leading_literal_witness :
    parseFloatR ("7" : String).data = some ((7 : ℚ), []) ∧
    stopsLiteral ("abc" : String).data = true ∧
    |(7 : ℚ) - probEx7.answer| < 1 / 100 ∧
    probEx7.isCorrect ("7" ++ "abc") = true := by
  have h1 : parseFloatR ("7" : String).data = some ((7 : ℚ), []) := by
    simp +decide [parseFloatR, parseMant, parseExp, parseSign, wsChar, digitsToNat, digitVal]
  have h2 : stopsLiteral ("abc" : String).data = true := by decide
  have h3 : |(7 : ℚ) - probEx7.answer| < 1 / 100 := by
    norm_num [probEx7, MathProblem.make, Op.fn, sub_self, abs_zero]
  exact ⟨h1, h2, h3, claim_C10_leading_literal probEx7 "7" "abc" 7 h1 h2 h3⟩

end MathRush
